import Mathlib

/-!
Shallow embedding of the `bsonx` typed expression builder
(src/src/expr.ts, src/src/compile.ts, src/src/update.ts, src/src/select.ts,
src/column.ts) together with proofs about its three compilers and the
path accessor.

JavaScript runtime documents are modelled as ordered association lists
(`JValue.obj`), matching the insertion-order semantics of plain JS objects;
structural equality in the model corresponds to structural (deep) equality
of the produced documents.
-/

namespace Bsonx

/-- Runtime values flowing through the compilers.  The compilers never
inspect or coerce scalar payloads, so JS numbers are modelled by `Int`;
`undef` models the JavaScript value `undefined` (the result of a
fallen-through `switch`). -/
inductive JValue where
  | undefinedVal : JValue
  | null : JValue
  | bool : Bool → JValue
  | num : Int → JValue
  | str : String → JValue
  | arr : List JValue → JValue
  | obj : List (String × JValue) → JValue

/-- `Column<T>` from src/column.ts: a path string (the phantom type
parameter has no runtime payload and is erased here). -/
structure Column where
  path : String
deriving Repr, DecidableEq

/-- The `column(path)` factory from src/column.ts: wraps the path, no
validation. -/
def column (path : String) : Column := ⟨path⟩

/-- The closed `Expr` union from src/src/expr.ts.  The four ordering
comparisons are typed `number` in TS; since the compilers move values
without inspecting them, the payload is `JValue` here, as at the JS
runtime.  The constructors model the eight factory functions, which
stamp the `kind` tag and store their arguments unchanged. -/
inductive Expr where
  | eq (col : Column) (val : JValue)
  | gt (col : Column) (val : JValue)
  | gte (col : Column) (val : JValue)
  | lt (col : Column) (val : JValue)
  | lte (col : Column) (val : JValue)
  | inArray (col : Column) (val : List JValue)
  | and (exprs : List Expr)
  | or (exprs : List Expr)

/-- `compileMatch` from src/src/compile.ts: the eight-way `switch`
lowering an `Expr` to a MongoDB filter document; `and`/`or` compile
their children recursively with `exprs.map(compileMatch)`. -/
def compileMatch : Expr → JValue
  | .eq c v => .obj [(c.path, v)]
  | .gt c v => .obj [(c.path, .obj [("$gt", v)])]
  | .gte c v => .obj [(c.path, .obj [("$gte", v)])]
  | .lt c v => .obj [(c.path, .obj [("$lt", v)])]
  | .lte c v => .obj [(c.path, .obj [("$lte", v)])]
  | .inArray c vs => .obj [(c.path, .obj [("$in", .arr vs)])]
  | .and es => .obj [("$and", .arr (es.attach.map (fun ⟨x, _⟩ => compileMatch x)))]
  | .or es => .obj [("$or", .arr (es.attach.map (fun ⟨x, _⟩ => compileMatch x)))]

/-- Runtime (untyped) expression node as the JS `switch` in `compileMatch`
sees it: a `kind` string plus the fields the eight variants read.  Nodes
whose `kind` is outside the eight variants exist only at this level (the
TS `Expr` union is closed). -/
inductive RawExpr where
  | mk (kind : String) (col : Column) (val : JValue) (exprs : List RawExpr)

/-- The same `switch` of src/src/compile.ts on an untyped node: a `switch`
with no `default` case, so an unrecognized `kind` falls through and the
function returns `undefined`.  For the `in` case the code emits
`{ $in: expr.val }` with whatever `expr.val` is. -/
def compileMatchRaw : RawExpr → JValue
  | .mk k c v es =>
    if k = "eq" then .obj [(c.path, v)]
    else if k = "gt" then .obj [(c.path, .obj [("$gt", v)])]
    else if k = "gte" then .obj [(c.path, .obj [("$gte", v)])]
    else if k = "lt" then .obj [(c.path, .obj [("$lt", v)])]
    else if k = "lte" then .obj [(c.path, .obj [("$lte", v)])]
    else if k = "in" then .obj [(c.path, .obj [("$in", v)])]
    else if k = "and" then .obj [("$and", .arr (es.attach.map (fun ⟨x, _⟩ => compileMatchRaw x)))]
    else if k = "or" then .obj [("$or", .arr (es.attach.map (fun ⟨x, _⟩ => compileMatchRaw x)))]
    else .undefinedVal

/-- JS property assignment `o[k] = v` on an insertion-ordered object: an
existing key keeps its position and receives the new value, a new key is
appended at the end.  (States built by `objAssign` from `[]` are
duplicate-free, as JS objects are.) -/
def objAssign (o : List (String × JValue)) (k : String) (v : JValue) :
    List (String × JValue) :=
  match o with
  | [] => [(k, v)]
  | p :: rest => if p.1 = k then (k, v) :: rest else p :: objAssign rest k v

/-- JS property read `o[k]`: `none` models `undefined`. -/
def objGet (o : List (String × JValue)) (k : String) : Option JValue :=
  match o with
  | [] => none
  | p :: rest => if p.1 = k then some p.2 else objGet rest k

/-- The group object used by `u.$set ??= {}` followed by mutation: the
existing object under `k` if present, otherwise a fresh empty one. -/
def getGroup (u : List (String × JValue)) (k : String) :
    List (String × JValue) :=
  match objGet u k with
  | some (.obj g) => g
  | _ => []

/-- The `Update` union from src/src/update.ts (`set` and `inc` factories
stamp the tag and store their arguments). -/
inductive Update where
  | set (col : Column) (val : JValue)
  | inc (col : Column) (val : JValue)

/-- Runtime update descriptor as the loop in `compileUpdate` sees it:
a `kind` string, a column and a value.  Kinds other than `set`/`inc`
exist only at this level (the TS `Update` union is closed). -/
structure RawUpdate where
  kind : String
  col : Column
  val : JValue

/-- The runtime tag and payload a typed `Update` node carries. -/
def Update.toRaw : Update → RawUpdate
  | .set c v => ⟨"set", c, v⟩
  | .inc c v => ⟨"inc", c, v⟩

/-- One iteration of the `for` loop of `compileUpdate`
(src/src/update.ts): two independent `if`s; a `set` node writes
`u.$set[path] = val` (creating `$set` if absent), an `inc` node does the
same under `$inc`; any other kind leaves the accumulator unchanged. -/
def updateStepRaw (u : List (String × JValue)) (upd : RawUpdate) :
    List (String × JValue) :=
  let u1 :=
    if upd.kind = "set" then
      objAssign u "$set" (.obj (objAssign (getGroup u "$set") upd.col.path upd.val))
    else u
  if upd.kind = "inc" then
    objAssign u1 "$inc" (.obj (objAssign (getGroup u1 "$inc") upd.col.path upd.val))
  else u1

/-- `compileUpdate` from src/src/update.ts on runtime descriptors:
reduce the sequence into `u = {}`. -/
def compileUpdateRaw (updates : List RawUpdate) : JValue :=
  .obj (updates.foldl updateStepRaw [])

/-- `compileUpdate` on the typed `Update` nodes: the same loop applied to
the runtime form of each node. -/
def compileUpdate (updates : List Update) : JValue :=
  compileUpdateRaw (updates.map Update.toRaw)

/-- `select` from src/src/select.ts over a TS-typed shape (every key maps
to a `Column`); the shape is an insertion-ordered record and each key `k`
is sent to the string `"$" + shape[k].path`. -/
def select (shape : List (String × Column)) : JValue :=
  .obj (shape.map (fun p => (p.1, .str ("$" ++ p.2.path))))

/-- The string JS interpolates for `shape[k]?.path` in the template
literal of `select`: the path when the entry is a Column, the text
`undefined` when the entry is missing (optional chaining yields
`undefined`, which stringifies to this text). -/
def colPathString : Option Column → String
  | some c => c.path
  | none => "undefined"

/-- `select` at the runtime level, where a shape entry may be missing or
`undefined` (`shape[k]?.path` with the silent fallback). -/
def selectDyn (shape : List (String × Option Column)) : JValue :=
  .obj (shape.map (fun p => (p.1, .str ("$" ++ colPathString p.2))))

/-- Lookup of a key in a typed shape. -/
def shapeGet (s : List (String × Column)) (k : String) : Option Column :=
  match s with
  | [] => none
  | p :: rest => if p.1 = k then some p.2 else shapeGet rest k

/-- Lookup of a key in a runtime shape (the found entry may itself be a
missing Column Reference). -/
def shapeGetDyn (s : List (String × Option Column)) (k : String) :
    Option (Option Column) :=
  match s with
  | [] => none
  | p :: rest => if p.1 = k then some p.2 else shapeGetDyn rest k

/-- The `get` trap of the Proxy in `defineSchema` (src/src/expr.ts):
`path ? path + "." + key : key` — the empty string is the only falsy
prior path. -/
def childPath (prior key : String) : String :=
  if prior = "" then key else prior ++ "." ++ key

/-- A Path Accessor: the accumulated path string closed over by `make`. -/
structure Accessor where
  path : String
deriving Repr, DecidableEq

/-- Property access on an accessor (`make(next)`): a fresh accessor
carrying the derived child path; the parent is untouched. -/
def accessGet (a : Accessor) (key : String) : Accessor :=
  ⟨childPath a.path key⟩

/-- `defineSchema()` returns `make()` whose default prior path is `""`. -/
def rootAccessor : Accessor := ⟨""⟩

/-- A chain of property accesses starting from an accessor. -/
def accessChain (a : Accessor) (keys : List String) : Accessor :=
  keys.foldl accessGet a

/-- Modelled from the spec: the conversion step that extracts the
accumulated path from a Path Accessor.  src/ contains no such helper
(its Proxy is passed off as a `Column` by structural typing); the spec
describes extraction as a dedicated, repeatable, side-effect-free step
reading the accumulated path. -/
def extractPath (a : Accessor) : String := a.path

/-- Spec-side shape of a dot-separated path: the accessed keys joined by
literal dots. -/
def joinDots : List String → String
  | [] => ""
  | [k] => k
  | k :: ks => k ++ "." ++ joinDots ks

/-- Later write overrides an earlier one (used to state last-write-wins). -/
def overrides (later earlier : Option JValue) : Option JValue :=
  match later with
  | some v => some v
  | none => earlier

/-- The value the last `set` node for path `p` carries, if any. -/
def lastSetVal (us : List Update) (p : String) : Option JValue :=
  match us with
  | [] => none
  | u :: rest =>
    overrides (lastSetVal rest p)
      (match u with
       | .set c v => if c.path = p then some v else none
       | _ => none)

/-- The value the last `inc` node for path `p` carries, if any. -/
def lastIncVal (us : List Update) (p : String) : Option JValue :=
  match us with
  | [] => none
  | u :: rest =>
    overrides (lastIncVal rest p)
      (match u with
       | .inc c v => if c.path = p then some v else none
       | _ => none)

/-- The value stored for path `p` under group `g` (`$set` or `$inc`) of a
compiled update document. -/
def docGroupVal (d : JValue) (g p : String) : Option JValue :=
  match d with
  | .obj u => objGet (getGroup u g) p
  | _ => none

/-- Whether a compiled document has key `k` at the top level. -/
def docHasKey (d : JValue) (k : String) : Prop :=
  match d with
  | .obj u => (objGet u k).isSome = true
  | _ => False

/-- Top-level read on a compiled document. -/
def docGet (d : JValue) (k : String) : Option JValue :=
  match d with
  | .obj u => objGet u k
  | _ => none

/-- The list of top-level keys of a compiled document. -/
def docKeys (d : JValue) : List String :=
  match d with
  | .obj u => u.map (fun p => p.1)
  | _ => []

/-- Whether a typed update node is a `set` node. -/
def Update.isSet : Update → Bool
  | .set _ _ => true
  | _ => false

/-- Whether a typed update node is an `inc` node. -/
def Update.isInc : Update → Bool
  | .inc _ _ => true
  | _ => false

/-! Helper lemmas. -/

@[simp]
theorem compileMatch_and_def (es : List Expr) :
    compileMatch (.and es) = .obj [("$and", .arr (es.map compileMatch))] := by
  rw [compileMatch]
  simp

@[simp]
theorem compileMatch_or_def (es : List Expr) :
    compileMatch (.or es) = .obj [("$or", .arr (es.map compileMatch))] := by
  rw [compileMatch]
  simp

theorem objGet_objAssign (o : List (String × JValue)) (k k' : String)
    (v : JValue) :
    objGet (objAssign o k v) k' = if k = k' then some v else objGet o k' := by
  induction o with
  | nil => simp [objAssign, objGet]
  | cons p rest ih =>
    by_cases h : p.1 = k
    · by_cases h2 : k = k' <;> simp [objAssign, objGet, h, h2]
    · by_cases h2 : p.1 = k'
      · have h3 : ¬k = k' := fun hk => h (h2.trans hk.symm)
        have h4 : ¬k' = k := fun hk => h3 hk.symm
        simp [objAssign, objGet, h, h2, h3, h4]
      · simp [objAssign, objGet, h, h2, ih]

theorem getGroup_objAssign_obj (o : List (String × JValue)) (k : String)
    (g : List (String × JValue)) :
    getGroup (objAssign o k (.obj g)) k = g := by
  simp [getGroup, objGet_objAssign]

theorem getGroup_objAssign_ne (o : List (String × JValue)) (k k' : String)
    (v : JValue) (h : k ≠ k') :
    getGroup (objAssign o k v) k' = getGroup o k' := by
  simp [getGroup, objGet_objAssign, h]

theorem updateStep_set (u : List (String × JValue)) (c : Column) (v : JValue) :
    updateStepRaw u (Update.set c v).toRaw
      = objAssign u "$set" (.obj (objAssign (getGroup u "$set") c.path v)) := by
  simp [updateStepRaw, Update.toRaw]

theorem updateStep_inc (u : List (String × JValue)) (c : Column) (v : JValue) :
    updateStepRaw u (Update.inc c v).toRaw
      = objAssign u "$inc" (.obj (objAssign (getGroup u "$inc") c.path v)) := by
  simp [updateStepRaw, Update.toRaw]

theorem foldl_set_val (us : List Update) :
    ∀ (u : List (String × JValue)) (p : String),
      objGet (getGroup ((us.map Update.toRaw).foldl updateStepRaw u) "$set") p
        = overrides (lastSetVal us p) (objGet (getGroup u "$set") p) := by
  induction us with
  | nil =>
    intro u p
    simp [lastSetVal, overrides]
  | cons x rest ih =>
    intro u p
    cases x with
    | set c v =>
      simp only [List.map_cons, List.foldl_cons, ih, updateStep_set,
        getGroup_objAssign_obj, objGet_objAssign, lastSetVal]
      cases lastSetVal rest p <;> by_cases hc : c.path = p <;>
        simp [overrides, hc]
    | inc c v =>
      simp only [List.map_cons, List.foldl_cons, ih, updateStep_inc,
        getGroup_objAssign_ne _ _ _ _ (by decide : ("$inc" : String) ≠ "$set"),
        lastSetVal]
      cases lastSetVal rest p <;> simp [overrides]

theorem foldl_inc_val (us : List Update) :
    ∀ (u : List (String × JValue)) (p : String),
      objGet (getGroup ((us.map Update.toRaw).foldl updateStepRaw u) "$inc") p
        = overrides (lastIncVal us p) (objGet (getGroup u "$inc") p) := by
  induction us with
  | nil =>
    intro u p
    simp [lastIncVal, overrides]
  | cons x rest ih =>
    intro u p
    cases x with
    | inc c v =>
      simp only [List.map_cons, List.foldl_cons, ih, updateStep_inc,
        getGroup_objAssign_obj, objGet_objAssign, lastIncVal]
      cases lastIncVal rest p <;> by_cases hc : c.path = p <;>
        simp [overrides, hc]
    | set c v =>
      simp only [List.map_cons, List.foldl_cons, ih, updateStep_set,
        getGroup_objAssign_ne _ _ _ _ (by decide : ("$set" : String) ≠ "$inc"),
        lastIncVal]
      cases lastIncVal rest p <;> simp [overrides]

theorem foldl_hasKey_set (us : List Update) :
    ∀ u : List (String × JValue),
      (objGet ((us.map Update.toRaw).foldl updateStepRaw u) "$set").isSome
        = ((objGet u "$set").isSome || us.any Update.isSet) := by
  induction us with
  | nil =>
    intro u
    simp
  | cons x rest ih =>
    intro u
    cases x with
    | set c v =>
      simp [List.foldl_cons, ih, updateStep_set, objGet_objAssign,
        Update.isSet]
    | inc c v =>
      simp [List.foldl_cons, ih, updateStep_inc, objGet_objAssign,
        Update.isSet]

theorem foldl_hasKey_inc (us : List Update) :
    ∀ u : List (String × JValue),
      (objGet ((us.map Update.toRaw).foldl updateStepRaw u) "$inc").isSome
        = ((objGet u "$inc").isSome || us.any Update.isInc) := by
  induction us with
  | nil =>
    intro u
    simp
  | cons x rest ih =>
    intro u
    cases x with
    | set c v =>
      simp [List.foldl_cons, ih, updateStep_set, objGet_objAssign,
        Update.isInc]
    | inc c v =>
      simp [List.foldl_cons, ih, updateStep_inc, objGet_objAssign,
        Update.isInc]

theorem overrides_none (a : Option JValue) : overrides a none = a := by
  cases a <;> simp [overrides]

theorem docGet_select (shape : List (String × Column)) (k : String) :
    docGet (select shape) k
      = (shapeGet shape k).map (fun c => .str ("$" ++ c.path)) := by
  induction shape with
  | nil => simp [select, docGet, objGet, shapeGet]
  | cons p rest ih =>
    by_cases h : p.1 = k
    · simp [select, docGet, objGet, shapeGet, h]
    · simp only [select, List.map_cons, docGet, objGet, shapeGet, if_neg h]
      simpa [select, docGet] using ih

theorem accessChain_cons (a : Accessor) (k : String) (ks : List String) :
    accessChain a (k :: ks) = accessChain (accessGet a k) ks := rfl

theorem append_ne_empty_left (p q : String) (h : p ≠ "") : p ++ q ≠ "" := by
  intro hc
  apply h
  have hl := congrArg String.length hc
  rw [String.length_append] at hl
  have hp : p.length = 0 := by
    have : String.length "" = 0 := rfl
    omega
  cases p with
  | mk data =>
    cases data with
    | nil => rfl
    | cons c cs => simp [String.length] at hp

theorem accessChain_path (ks : List String) :
    ∀ p : String, p ≠ "" → (accessChain ⟨p⟩ ks).path = joinDots (p :: ks) := by
  induction ks with
  | nil =>
    intro p hp
    simp [accessChain, joinDots]
  | cons key rest ih =>
    intro p hp
    rw [accessChain_cons]
    have hstep : accessGet ⟨p⟩ key = ⟨p ++ "." ++ key⟩ := by
      simp [accessGet, childPath, hp]
    rw [hstep, ih _ (append_ne_empty_left _ _ (append_ne_empty_left _ _ hp))]
    cases rest with
    | nil => simp [joinDots]
    | cons r rs => simp [joinDots, String.append_assoc]

/-! Claim theorems. -/

/-- C1: `compileMatch` maps each comparison variant to exactly the
documented filter shape: `eq` compiles to `{p: v}` for any value `v`
(including null), each ordering kind `k` compiles to the document
`{p: {"$"+k: v}}`, and `in` compiles to `{p: {$in: vals}}` with the
element order of `vals` preserved exactly. -/
theorem compileMatch_comparison_shapes (p : String) (v : JValue)
    (vals : List JValue) :
    compileMatch (.eq (column p) v) = .obj [(p, v)] ∧
    compileMatch (.gt (column p) v) = .obj [(p, .obj [("$gt", v)])] ∧
    compileMatch (.gte (column p) v) = .obj [(p, .obj [("$gte", v)])] ∧
    compileMatch (.lt (column p) v) = .obj [(p, .obj [("$lt", v)])] ∧
    compileMatch (.lte (column p) v) = .obj [(p, .obj [("$lte", v)])] ∧
    compileMatch (.inArray (column p) vals)
      = .obj [(p, .obj [("$in", .arr vals)])] := by
  refine ⟨?_, ?_, ?_, ?_, ?_, ?_⟩ <;> simp [compileMatch, column]

/-- C2: `and(e1,e2)` compiles to `{$and: [compileMatch e1, compileMatch e2]}`
(and `or` analogously), children compiled recursively in order with no
flattening: `and(and(e1,e2),e3)` yields a two-element `$and` array whose
first element is itself a `$and` document, and in general the compiled
child array of a compound node has exactly as many elements as the node
has children. -/
theorem compileMatch_compound_structural (e1 e2 e3 : Expr) :
    compileMatch (.and [e1, e2])
      = .obj [("$and", .arr [compileMatch e1, compileMatch e2])] ∧
    compileMatch (.or [e1, e2])
      = .obj [("$or", .arr [compileMatch e1, compileMatch e2])] ∧
    compileMatch (.and [.and [e1, e2], e3])
      = .obj [("$and", .arr
          [.obj [("$and", .arr [compileMatch e1, compileMatch e2])],
           compileMatch e3])] ∧
    ∀ es : List Expr, ∃ l : List JValue,
      compileMatch (.and es) = .obj [("$and", .arr l)] ∧
      compileMatch (.or es) = .obj [("$or", .arr l)] ∧
      l.length = es.length := by
  refine ⟨by simp, by simp, by simp, fun es => ⟨es.map compileMatch, by simp, by simp, by simp⟩⟩

/-- C3, as stated, is false of the code: on a node whose kind is outside
the defined variants, `compileMatch` returns `undefined` instead of
raising a contract-violation signal, and `compileUpdate` silently skips
the node, returning a document built from the recognized nodes only
(a partial document when recognized nodes are present). -/
theorem compile_unknown_kind_cex :
    compileMatchRaw (.mk "regex" (column "a") (.num 1) []) = .undefinedVal ∧
    compileUpdateRaw [⟨"unset", column "a", .num 1⟩] = .obj [] ∧
    compileUpdateRaw [⟨"set", column "a", .num 1⟩,
        ⟨"unset", column "b", .num 2⟩]
      = .obj [("$set", .obj [("a", .num 1)])] := by
  refine ⟨?_, rfl, rfl⟩
  rw [compileMatchRaw]
  simp

/-- C3 amended: for every node whose kind is not one of the defined
variants, `compileMatch` falls through its `switch` and returns
`undefined`, and `compileUpdate` ignores the node entirely (compiling a
sequence containing it exactly as the sequence without it); neither
raises a fatal signal. -/
theorem compile_unknown_kind_behavior (k : String) (c : Column) (v : JValue)
    (es : List RawExpr) (pre post : List RawUpdate) (upd : RawUpdate)
    (hm : k ∉ ["eq", "gt", "gte", "lt", "lte", "in", "and", "or"])
    (hs : upd.kind ≠ "set") (hi : upd.kind ≠ "inc") :
    compileMatchRaw (.mk k c v es) = .undefinedVal ∧
    compileUpdateRaw (pre ++ upd :: post) = compileUpdateRaw (pre ++ post) := by
  constructor
  · simp only [List.mem_cons, List.not_mem_nil, or_false, not_or] at hm
    obtain ⟨h1, h2, h3, h4, h5, h6, h7, h8⟩ := hm
    rw [compileMatchRaw]
    simp [h1, h2, h3, h4, h5, h6, h7, h8]
  · have hstep : ∀ u, updateStepRaw u upd = u := by
      intro u
      simp [updateStepRaw, hs, hi]
    simp [compileUpdateRaw, List.foldl_append, hstep]

/-- Witness for the amended C3 at concrete inputs. -/
theorem compile_unknown_kind_behavior_witness :
    (("regex" : String) ∉ ["eq", "gt", "gte", "lt", "lte", "in", "and", "or"]) ∧
    compileMatchRaw (.mk "regex" (column "a") (.num 1) []) = .undefinedVal ∧
    compileUpdateRaw ([⟨"set", column "a", .num 1⟩]
        ++ (⟨"unset", column "b", .num 2⟩ : RawUpdate) :: [])
      = compileUpdateRaw ([⟨"set", column "a", .num 1⟩] ++ []) := by
  have h := compile_unknown_kind_behavior "regex" (column "a") (.num 1) []
    [⟨"set", column "a", .num 1⟩] [] ⟨"unset", column "b", .num 2⟩
    (by decide) (by decide) (by decide)
  exact ⟨by decide, h.1, h.2⟩

/-- C4: `compileUpdate` resolves same-path collisions by last-write-wins
within each group (the value stored under `$set`/`$inc` for a path is
the value of the last `set`/`inc` node targeting it), the two groups are
independent, and a `set` and an `inc` on the same path both appear, under
`$set` and `$inc` respectively. -/
theorem compileUpdate_last_write_wins (us : List Update) (p : String) :
    docGroupVal (compileUpdate us) "$set" p = lastSetVal us p ∧
    docGroupVal (compileUpdate us) "$inc" p = lastIncVal us p ∧
    compileUpdate [.set (column "a") (.num 1), .set (column "a") (.num 2)]
      = .obj [("$set", .obj [("a", .num 2)])] ∧
    compileUpdate [.set (column "a") (.num 1), .inc (column "a") (.num 2)]
      = .obj [("$set", .obj [("a", .num 1)]), ("$inc", .obj [("a", .num 2)])] := by
  refine ⟨?_, ?_, rfl, rfl⟩
  · have h := foldl_set_val us [] p
    simpa [compileUpdate, compileUpdateRaw, docGroupVal, getGroup, objGet,
      overrides_none] using h
  · have h := foldl_inc_val us [] p
    simpa [compileUpdate, compileUpdateRaw, docGroupVal, getGroup, objGet,
      overrides_none] using h

/-- C5: the `$set` (resp. `$inc`) key is present in the output of
`compileUpdate` exactly when at least one `set` (resp. `inc`) node occurs
in the input; the empty input compiles to the empty document. -/
theorem compileUpdate_group_presence (us : List Update) :
    (docHasKey (compileUpdate us) "$set" ↔ ∃ u ∈ us, u.isSet = true) ∧
    (docHasKey (compileUpdate us) "$inc" ↔ ∃ u ∈ us, u.isInc = true) ∧
    compileUpdate [] = .obj [] := by
  refine ⟨?_, ?_, rfl⟩
  · have h := foldl_hasKey_set us []
    simp only [objGet, Option.isSome_none, Bool.false_or] at h
    simp [compileUpdate, compileUpdateRaw, docHasKey, h, List.any_eq_true]
  · have h := foldl_hasKey_inc us []
    simp only [objGet, Option.isSome_none, Bool.false_or] at h
    simp [compileUpdate, compileUpdateRaw, docHasKey, h, List.any_eq_true]

/-- C6: `select` returns a document whose keys are exactly the keys of
the shape, each mapped to the string `"$" + col.path`; in particular
`select({x: col("a.b"), y: col("c")}) = {x: "$a.b", y: "$c"}`. -/
theorem select_projection_shape (shape : List (String × Column)) (k : String) :
    docKeys (select shape) = shape.map (fun p => p.1) ∧
    docGet (select shape) k
      = (shapeGet shape k).map (fun c => .str ("$" ++ c.path)) ∧
    select [("x", column "a.b"), ("y", column "c")]
      = .obj [("x", .str "$a.b"), ("y", .str "$c")] := by
  refine ⟨?_, docGet_select shape k, rfl⟩
  simp [docKeys, select]

/-- C7, as stated, is false of the code: on a shape whose entry is a
missing Column Reference, `select` does not fail; it returns a document
mapping the key to the malformed placeholder string `$undefined`. -/
theorem select_missing_ref_cex :
    selectDyn [("x", none)] = .obj [("x", .str "$undefined")] := rfl

/-- C7 amended: for every shape entry whose Column Reference is
missing/undefined, `select` silently emits the placeholder string
`$undefined` (the template-literal stringification of the optional-chain
fallback) for that key, rather than failing fast. -/
theorem selectDyn_missing_ref (shape : List (String × Option Column))
    (k : String) (h : shapeGetDyn shape k = some none) :
    docGet (selectDyn shape) k = some (.str "$undefined") := by
  induction shape with
  | nil => simp [shapeGetDyn] at h
  | cons p rest ih =>
    by_cases hp : p.1 = k
    · rw [shapeGetDyn] at h
      rw [if_pos hp] at h
      have h2 : p.2 = none := by simpa using h
      simp [selectDyn, docGet, objGet, hp, h2, colPathString]
    · rw [shapeGetDyn] at h
      rw [if_neg hp] at h
      simp only [selectDyn, List.map_cons, docGet, objGet, if_neg hp]
      simpa [selectDyn, docGet] using ih h

/-- Witness for the amended C7 at a concrete input. -/
theorem selectDyn_missing_ref_witness :
    shapeGetDyn [("x", (none : Option Column))] "x" = some none ∧
    docGet (selectDyn [("x", none)]) "x" = some (.str "$undefined") :=
  ⟨rfl, selectDyn_missing_ref [("x", none)] "x" rfl⟩

/-- C8: each string field access on a path accessor derives the child
path as `priorPath ? priorPath + "." + key : key` and returns a fresh
accessor carrying it, leaving the parent unchanged; a chain of accesses
beginning with a nonempty key accumulates the dot-joined path, and in
particular extracting the path from `accessor.address.city` yields
exactly the string `address.city`. -/
theorem accessor_path_derivation (prior key k : String) (ks : List String)
    (h : k ≠ "") :
    accessGet ⟨prior⟩ key
      = ⟨if prior = "" then key else prior ++ "." ++ key⟩ ∧
    extractPath (accessChain rootAccessor (k :: ks)) = joinDots (k :: ks) ∧
    extractPath (accessChain rootAccessor ["address", "city"])
      = "address.city" := by
  refine ⟨rfl, ?_, rfl⟩
  rw [accessChain_cons]
  have hroot : accessGet rootAccessor k = ⟨k⟩ := by
    simp [rootAccessor, accessGet, childPath]
  rw [hroot]
  exact accessChain_path ks k h

/-- Witness for C8 at concrete inputs. -/
theorem accessor_path_derivation_witness :
    ("address" : String) ≠ "" ∧
    extractPath (accessChain rootAccessor ["address", "city"])
      = "address.city" :=
  ⟨by decide,
   (accessor_path_derivation "" "x" "address" ["city"] (by decide)).2.2⟩

/-- C9: the three compilers are deterministic pure functions: applied to
structurally equal inputs they produce structurally identical documents,
with no dependence on anything outside the input (in this embedding each
is a total function of its argument alone). -/
theorem compilers_deterministic (e e' : Expr) (us us' : List Update)
    (s s' : List (String × Column)) (h1 : e = e') (h2 : us = us')
    (h3 : s = s') :
    compileMatch e = compileMatch e' ∧
    compileUpdate us = compileUpdate us' ∧
    select s = select s' := by
  subst h1
  subst h2
  subst h3
  exact ⟨rfl, rfl, rfl⟩

/-- Witness for C9 at concrete inputs. -/
theorem compilers_deterministic_witness :
    compileMatch (.eq (column "a") (.num 1))
      = compileMatch (.eq (column "a") (.num 1)) ∧
    compileUpdate [.set (column "a") (.num 1)]
      = compileUpdate [.set (column "a") (.num 1)] ∧
    select [("x", column "a")] = select [("x", column "a")] :=
  compilers_deterministic _ _ _ _ _ _ rfl rfl rfl

/-- C10: compiling a zero-child compound node is well-defined and
structural: `and()` compiles to `{$and: []}` and `or()` to `{$or: []}`,
the operator key present and mapped to an empty array. -/
theorem compileMatch_empty_compound :
    compileMatch (.and []) = .obj [("$and", .arr [])] ∧
    compileMatch (.or []) = .obj [("$or", .arr [])] :=
  ⟨by simp, by simp⟩

end Bsonx
